import Mathlib

/-!
Verification of the Dart data class model and diff engine of this repository.

The development shallowly embeds the JavaScript source of
src/commands/commands.js: the classes DartClass, Imports, DartClassProperty
and ClassPart become Lean structures, their getters and methods become pure
Lean functions over those structures.  JavaScript strings are modelled by
Lean String values (a structure wrapping a list of characters), and the
string primitives used by the source (startsWith, endsWith, includes, trim,
split, replace of the first occurrence) are defined below by explicit
recursion over the character list so that every proof can reason about them
directly.

A small number of helper functions (removeEnd, isBlank, areStrictEqual) live
in the repository helpers module which is not part of the provided sources;
these are modelled from the natural language specification and are marked as
such in their documentation.
-/

/-- Characters treated as whitespace when trimming and blank testing. -/
def isWsChar (c : Char) : Bool :=
  c = ' ' || c = '\t' || c = '\n' || c = '\r'

/-- Model of the JavaScript trimLeft operation. -/
def sTrimLeft (s : String) : String :=
  ⟨s.data.dropWhile isWsChar⟩

/-- Model of the JavaScript trimRight operation. -/
def sTrimRight (s : String) : String :=
  ⟨(s.data.reverse.dropWhile isWsChar).reverse⟩

/-- Model of the JavaScript trim operation. -/
def sTrim (s : String) : String :=
  sTrimRight (sTrimLeft s)

/-- Model of the JavaScript startsWith test. -/
def sStartsWith (s p : String) : Bool :=
  p.data.isPrefixOf s.data

/-- Model of the JavaScript endsWith test: the suffix of matching length
must coincide with the candidate ending. -/
def sEndsWith (s e : String) : Bool :=
  decide (s.data.drop (s.data.length - e.data.length) = e.data)

/-- Occurrence test of a character pattern inside a character list,
used to model the JavaScript includes test. -/
def occursIn (sub : List Char) : List Char → Bool
  | [] => sub.isEmpty
  | c :: rest => sub.isPrefixOf (c :: rest) || occursIn sub rest

/-- Model of the JavaScript includes test. -/
def sIncludes (s sub : String) : Bool :=
  occursIn sub.data s.data

/-- Replacement of the first occurrence of a pattern in a character list. -/
def replaceFirstAux (pat rep : List Char) : List Char → List Char
  | [] => if pat.isPrefixOf ([] : List Char) then rep else []
  | c :: cs =>
    if pat.isPrefixOf (c :: cs) then rep ++ (c :: cs).drop pat.length
    else c :: replaceFirstAux pat rep cs

/-- Model of the JavaScript replace operation with a plain string pattern,
which rewrites only the first occurrence of the pattern. -/
def sReplaceFirst (s pat rep : String) : String :=
  ⟨replaceFirstAux pat.data rep.data s.data⟩

/-- Removal of every whitespace character of a string. -/
def stripWs (s : String) : String :=
  ⟨s.data.filter (fun c => !isWsChar c)⟩

/-- Modelled from the spec: removeEnd from the repository helpers module,
which is not under the provided sources.  The spec describes its effect as
stripping a given trailing piece, for example the trailing newline of a
generated replacement; when the string does not end in the given piece it is
returned unchanged. -/
def removeEnd (s e : String) : String :=
  if sEndsWith s e then ⟨s.data.take (s.data.length - e.data.length)⟩ else s

/-- Modelled from the spec: isBlank from the repository helpers module,
which is not under the provided sources.  A line is blank when it carries
only whitespace. -/
def isBlank (s : String) : Bool :=
  decide (sTrim s = "")

/-- Modelled from the spec: areStrictEqual from the repository helpers
module, which is not under the provided sources.  The spec demands that an
already formatted import block, given again as input, produces
shouldChange false and hence no edit; since rawStatements stores each
directive followed by one newline while the formatted text inserts blank
separator lines between buckets, the two texts of an already formatted
block agree only after disregarding whitespace, so the comparison is
modelled as equality of the whitespace free residues. -/
def areStrictEqual (a b : String) : Bool :=
  decide (stripWs a = stripWs b)

/-- Splitting of a character list at newline characters, modelling the
JavaScript split operation with separator newline. -/
def splitNl : List Char → List (List Char)
  | [] => [[]]
  | c :: cs =>
    if c = '\n' then [] :: splitNl cs
    else
      match splitNl cs with
      | [] => [[c]]
      | h :: t => (c :: h) :: t

/-- Splitting of a string into its lines at newline characters. -/
def splitNlStr (s : String) : List String :=
  (splitNl s.data).map (⟨·⟩)

/-- Concatenation of a list of strings. -/
def strConcat (l : List String) : String :=
  l.foldr (· ++ ·) ""

/-- Each string of the list followed by a newline, concatenated. -/
def joinLines (l : List String) : String :=
  strConcat (l.map (· ++ "\n"))

/-- Lexicographic comparison of character lists by code point, modelling
the default JavaScript comparison of strings used by the array sort. -/
def charListLe : List Char → List Char → Bool
  | [], _ => true
  | _ :: _, [] => false
  | a :: as, b :: bs =>
    if a.toNat < b.toNat then true
    else if b.toNat < a.toNat then false
    else charListLe as bs

/-- Lexicographic string comparison by code point. -/
def strLe (a b : String) : Bool :=
  charListLe a.data b.data

/-- Order relation used for sorting import statements. -/
def strLeRel (a b : String) : Prop :=
  strLe a b = true

instance : DecidableRel strLeRel :=
  fun a b => instDecidableEqBool (strLe a b) true

/-- Stable sort of a list of strings in the lexicographic order, modelling
the default JavaScript array sort on strings, which is specified as a
stable sort under the string comparison. -/
def sortStrings (l : List String) : List String :=
  l.insertionSort strLeRel

/-- Property model: one field of one class, as stored by the source
constructor of DartClassProperty.  The source constructor derives the name
field by camel casing the raw name with toVarName from the repository
helpers module, which is not under the provided sources; no operation
modelled here reads anything but the raw type and the stored name, so the
stored name is kept abstract as a plain field. -/
structure DartClassProperty where
  rawType : String
  jsonName : String
  name : String
  lineNumber : Int
  isFinal : Bool
  isConst : Bool
  isEnum : Bool

namespace DartClassProperty

/-- Collection test of the source: the raw type equals the collection name
or starts with the collection name followed by an opening angle bracket. -/
def isCollectionType (p : DartClassProperty) (t : String) : Bool :=
  decide (p.rawType = t) || sStartsWith p.rawType (t ++ "<")

/-- Nullability getter of the source. -/
def isNullable (p : DartClassProperty) : Bool :=
  sEndsWith p.rawType "?"

/-- Base type getter of the source: the raw type with a trailing question
mark removed. -/
def type (p : DartClassProperty) : String :=
  if p.isNullable then removeEnd p.rawType "?" else p.rawType

/-- List test of the source. -/
def isList (p : DartClassProperty) : Bool :=
  p.isCollectionType "List"

/-- Map test of the source. -/
def isMap (p : DartClassProperty) : Bool :=
  p.isCollectionType "Map"

/-- Set test of the source. -/
def isSet (p : DartClassProperty) : Bool :=
  p.isCollectionType "Set"

/-- Collection test of the source. -/
def isCollection (p : DartClassProperty) : Bool :=
  p.isList || p.isMap || p.isSet

/-- Element type getter of the source: for a list or set, a fresh property
whose raw type is the text between the outer angle brackets, defaulting to
dynamic when the raw type carries no argument; otherwise the property
itself.  The source builds the fresh property through the constructor,
which passes the stored name and line, leaves isConst at its default false
value, and applies the missing toVarName helper to the name. -/
def listType (p : DartClassProperty) : DartClassProperty :=
  if p.isList || p.isSet then
    let collection := if p.isSet then "Set" else "List"
    let t :=
      if p.rawType = collection then "dynamic"
      else sReplaceFirst (sReplaceFirst p.rawType (collection ++ "<") "") ">" ""
    { rawType := t, jsonName := p.name, name := p.name,
      lineNumber := p.lineNumber, isFinal := p.isFinal,
      isConst := false, isEnum := false }
  else p

/-- Integer test of the source. -/
def isInt (p : DartClassProperty) : Bool :=
  decide (p.listType.type = "int")

/-- Floating point test of the source. -/
def isDouble (p : DartClassProperty) : Bool :=
  decide (p.listType.type = "double")

/-- Primitiveness getter of the source. -/
def isPrimitive (p : DartClassProperty) : Bool :=
  let t := p.listType.type
  decide (t = "String") || decide (t = "num") || decide (t = "dynamic") ||
    decide (t = "bool") || p.isDouble || p.isInt || p.isMap

/-- Default value getter of the source. -/
def defValue (p : DartClassProperty) : String :=
  if p.isList then "const []"
  else if p.isMap || p.isSet then "const \x7b\x7d"
  else
    if p.type = "String" then "\x27\x27"
    else if p.type = "num" then "0"
    else if p.type = "int" then "0"
    else if p.type = "double" then "0.0"
    else if p.type = "bool" then "false"
    else if p.type = "dynamic" then "null"
    else p.type ++ "()"

end DartClassProperty

/-- Fixed default value table of the spec, keyed by the base type. -/
def defaultValueTable (t : String) : String :=
  if t = "String" then "\x27\x27"
  else if t = "num" then "0"
  else if t = "int" then "0"
  else if t = "double" then "0.0"
  else if t = "bool" then "false"
  else if t = "dynamic" then "null"
  else t ++ "()"

/-- Default value literal as worded by the spec: const list literal for a
list, const braces literal for a map or a set, otherwise the fixed table
applied to the base type. -/
def defValueSpec (p : DartClassProperty) : String :=
  if p.isList then "const []"
  else if p.isMap || p.isSet then "const \x7b\x7d"
  else defaultValueTable p.type

/-- Replacement unit of the source: a named class member with its line span,
its current text and its canonical replacement text.  All fields other than
the name default to null in the source constructor, hence the option types. -/
structure ClassPart where
  name : String
  startsAt : Option Int
  endsAt : Option Int
  current : Option String
  replacement : Option String

/-- Class model of the source: identity, generics, supertypes, constructor
text and span, property list, class line span, raw class text, and the
planned inserts and replacements.  Fields initialised to null by the source
constructor are option typed. -/
structure DartClass where
  name : String
  fullGenericType : String
  superclass : Option String
  interfaces : List String
  mixins : List String
  constr : Option String
  properties : List DartClassProperty
  startsAtLine : Option Int
  endsAtLine : Option Int
  constrStartsAtLine : Option Int
  constrEndsAtLine : Option Int
  constrDifferent : Bool
  isArray : Bool
  classContent : String
  toInsert : String
  toReplace : List ClassPart
  isLastInFile : Bool
  abstract : Bool

namespace DartClass

/-- Line of the last property of the source getter propsEndAtLine, or the
sentinel value for a class without properties. -/
def propsEndAtLine (c : DartClass) : Int :=
  match c.properties.getLast? with
  | some p => p.lineNumber
  | none => -1

/-- Detection getter of the source: the class start line was recorded. -/
def classDetected (c : DartClass) : Bool :=
  c.startsAtLine.isSome

/-- Ending getter of the source: the class end line was recorded. -/
def hasEnding (c : DartClass) : Bool :=
  c.endsAtLine.isSome

/-- Property presence getter of the source. -/
def hasProperties (c : DartClass) : Bool :=
  !c.properties.isEmpty

/-- Loop of the source getter uniquePropNames: walk the property names,
remembering the ones already seen, and fail on the first repetition. -/
def uniqueLoop : List String → List String → Bool
  | [], _ => true
  | n :: rest, seen => if n ∈ seen then false else uniqueLoop rest (seen ++ [n])

/-- Uniqueness getter of the source. -/
def uniquePropNames (c : DartClass) : Bool :=
  uniqueLoop (c.properties.map DartClassProperty.name) []

/-- Validity getter of the source. -/
def isValid (c : DartClass) : Bool :=
  c.classDetected && c.hasEnding && c.hasProperties && c.uniquePropNames

/-- Constructor presence getter of the source. -/
def hasConstructor (c : DartClass) : Bool :=
  c.constrStartsAtLine.isSome && c.constrEndsAtLine.isSome && c.constr.isSome

/-- Named constructor getter of the source: with a stored constructor text,
remove the first occurrence of the const keyword, trim the left end and test
for the class name followed by an opening parenthesis and brace; without a
stored constructor text the getter returns true. -/
def hasNamedConstructor (c : DartClass) : Bool :=
  match c.constr with
  | some t => sStartsWith (sTrimLeft (sReplaceFirst t "const" "")) (c.name ++ "(\x7b")
  | none => true

/-- Abstractness getter of the source: read from the class text when it is
non empty, otherwise from the stored flag. -/
def isAbstract (c : DartClass) : Bool :=
  if c.classContent ≠ "" then sStartsWith (sTrimLeft c.classContent) "abstract class"
  else c.abstract

/-- Issue getter of the source: a fixed priority chain of human readable
reasons, falling back to a generic message built by stripping the colon and
blank of the common message head. -/
def issue (c : DartClass) : String :=
  let defMsg := c.name ++ " couldn\x27t be converted to a data class: "
  if !c.hasProperties then defMsg ++ "Class must have at least one property!"
  else if !c.hasEnding then defMsg ++ "Class has no ending!"
  else if !c.uniquePropNames then defMsg ++ "Class doesn\x27t have unique property names!"
  else removeEnd defMsg ": " ++ "."

/-- Span test of the source method replacementAtLine.  The JavaScript
comparison operators coerce a null bound to zero, hence the default values
on the optional span ends. -/
def coversLine (line : Int) (part : ClassPart) : Bool :=
  decide (part.startsAt.getD 0 ≤ line) && decide (line ≤ part.endsAt.getD 0)

/-- Lookup of the source method replacementAtLine: the replacement text of
the first planned part whose span covers the line, or null. -/
def replacementAtLine (c : DartClass) (line : Int) : Option String :=
  match c.toReplace.find? (coversLine line) with
  | some part => part.replacement
  | none => none

/-- Comma separated join of the supertypes loop in the source. -/
def joinComma : List String → String
  | [] => ""
  | [x] => x
  | x :: y :: rest => x ++ ", " ++ joinComma (y :: rest)

/-- The addSuperTypes helper of the source: nothing for an empty list,
otherwise the keyword between blanks followed by the comma separated list. -/
def addSuperTypes (list : List String) (keyword : String) : String :=
  if list.isEmpty then "" else " " ++ keyword ++ " " ++ joinComma list

/-- Synthesised class header of the source: class kind, name, generics,
extends clause, mixins and interfaces, then the opening brace and newline. -/
def classDeclarationOf (c : DartClass) : String :=
  let classType := if c.isAbstract then "abstract class" else "class"
  let base := classType ++ " " ++ c.name ++ c.fullGenericType
  let withSuper :=
    match c.superclass with
    | some s => base ++ " extends " ++ s
    | none => base
  withSuper ++ addSuperTypes c.mixins "with" ++ addSuperTypes c.interfaces "implements"
    ++ " \x7b\n"

/-- One iteration of the reverse reconstruction loop of the source method
generateClassReplacement, at loop index i, prepending to the accumulated
replacement text.  The JavaScript arithmetic coerces a null start line to
zero, while the equality comparison of a line number against a null end
line is false, hence the two different treatments of the optional fields. -/
def genStep (c : DartClass) (lines : List String) (i : Int) (acc : String) : String :=
  let line := lines.getD i.toNat "undefined" ++ "\n"
  let l : Int := c.startsAtLine.getD 0 + i
  if i = 0 then c.classDeclarationOf ++ acc
  else if l = c.propsEndAtLine ∧ c.constr.isSome ∧ c.hasConstructor = false then
    line ++ (c.constr.getD "" ++ acc)
  else if c.endsAtLine = some l ∧ c.isValid = true then
    c.toInsert ++ (line ++ acc)
  else
    match c.replacementAtLine l with
    | some rp => if sIncludes acc rp then acc else rp ++ "\n" ++ acc
    | none => line ++ acc

/-- Accumulated replacement text after the given number of iterations of
the reverse loop of generateClassReplacement, which starts at index N and
steps downwards. -/
def genSteps (c : DartClass) (lines : List String) (N : Int) : Nat → String
  | 0 => ""
  | k + 1 => genStep c lines (N - k) (genSteps c lines N k)

/-- The source method generateClassReplacement: run the reverse loop over
every index of the class line span and strip one trailing newline. -/
def generateClassReplacement (c : DartClass) : String :=
  let lines := splitNlStr c.classContent
  let N : Int := c.endsAtLine.getD 0 - c.startsAtLine.getD 0
  removeEnd (genSteps c lines N (N + 1).toNat) "\n"

end DartClass

/-- Issue message as worded by the spec: a fixed priority list with the
reasons no fields, then no ending, then duplicate names, then a generic
fallback. -/
def issueSpec (c : DartClass) : String :=
  if c.properties.isEmpty then
    c.name ++ " couldn\x27t be converted to a data class: Class must have at least one property!"
  else if c.endsAtLine = none then
    c.name ++ " couldn\x27t be converted to a data class: Class has no ending!"
  else if c.uniquePropNames = false then
    c.name ++ " couldn\x27t be converted to a data class: Class doesn\x27t have unique property names!"
  else
    c.name ++ " couldn\x27t be converted to a data class."

/-- Named constructor shape as worded by the claim: the constructor text,
after stripping a leading const keyword, begins with the class name followed
by an opening parenthesis and brace.  Leading whitespace is trimmed before
and after the keyword so that the reading is as charitable as possible. -/
def namedConstructorClaim (name constr : String) : Bool :=
  let t := sTrimLeft constr
  let t2 := if sStartsWith t "const" then sTrimLeft ⟨t.data.drop 5⟩ else t
  sStartsWith t2 (name ++ "(\x7b")

/-- A class model with every field at the value given to it by the source
constructor of DartClass, with the name left empty. -/
def baseClass : DartClass :=
  { name := "", fullGenericType := "", superclass := none, interfaces := [],
    mixins := [], constr := none, properties := [], startsAtLine := none,
    endsAtLine := none, constrStartsAtLine := none, constrEndsAtLine := none,
    constrDifferent := false, isArray := false, classContent := "",
    toInsert := "", toReplace := [], isLastInFile := false, abstract := false }

/-- A property model with the field values given by the source constructor
of DartClassProperty when only a type and a name are supplied. -/
def mkProperty (rawType name : String) : DartClassProperty :=
  { rawType := rawType, jsonName := name, name := name, lineNumber := 1,
    isFinal := true, isConst := false, isEnum := false }

/-- Import block model of the source: trimmed directive statements, the
recorded block span, the raw captured text, and the project name given to
the constructor. -/
structure Imports where
  values : List String
  startAtLine : Option Nat
  endAtLine : Option Nat
  rawStatements : String
  projectName : Option String

/-- Directive test of the reading loop of the source: the trimmed line
starts with one of the three directive keywords. -/
def stmtStart (line : String) : Bool :=
  sStartsWith line "import" || sStartsWith line "export" || sStartsWith line "part"

namespace Imports

/-- Import block state as initialised by the source constructor, before the
text is read. -/
def emptyState (projectName : Option String) : Imports :=
  { values := [], startAtLine := none, endAtLine := none,
    rawStatements := "", projectName := projectName }

/-- Reading loop of the source method readImports over the remaining lines,
carrying the previous raw line and the current line index.  A directive
line is trimmed, recorded, and opens the block; the loop stops after the
last line, or at the first line that is neither a directive, nor blank, nor
a library directive, nor a comment before the first directive, fixing the
end of the block at the previous line when that one is blank. -/
def readGo (prev : Option String) (i : Nat) (st : Imports) : List String → Imports
  | [] => st
  | rawLine :: rest =>
    let line := sTrim rawLine
    let isLast := rest.isEmpty
    if stmtStart line then
      let st1 : Imports :=
        { st with
          values := st.values ++ [line],
          rawStatements := st.rawStatements ++ (line ++ "\n"),
          startAtLine := if st.startAtLine.isSome then st.startAtLine else some (i + 1) }
      if isLast then { st1 with endAtLine := some (i + 1) }
      else readGo (some rawLine) (i + 1) st1 rest
    else
      let isInitialComment := sStartsWith line "//" && st.values.isEmpty
      let importsSectionEnded :=
        !(isInitialComment || sStartsWith line "library" || isBlank line)
      if isLast || importsSectionEnded then
        if st.startAtLine.isSome then
          let prevBlank := match prev with | some p => isBlank p | none => false
          { st with endAtLine := if decide (0 < i) && prevBlank then some (i - 1) else some i }
        else st
      else readGo (some rawLine) (i + 1) st rest

/-- The source method readImports, run by the constructor: an empty text is
not read at all, any other text is split into lines and walked by the
reading loop. -/
def readImports (text : String) (projectName : Option String) : Imports :=
  if text = "" then emptyState projectName
  else readGo none 0 (emptyState projectName) (splitNlStr text)

/-- Presence getter of the source. -/
def hasImports (imp : Imports) : Bool :=
  !imp.values.isEmpty

/-- Span presence getter of the source. -/
def hasPreviousImports (imp : Imports) : Bool :=
  imp.startAtLine.isSome && imp.endAtLine.isSome

end Imports

/-- Same project package test of the partition loop: the statement
mentions the package of the workspace name; a missing workspace name, the
null of the source, never matches because the JavaScript test checks the
workspace against null first. -/
def isLocalPackage (workspace : Option String) (s : String) : Bool :=
  match workspace with
  | some w => sIncludes s ("package:" ++ w)
  | none => false

/-- Bucket index of one directive statement, following the if chain of the
partition loop of the source getter formatted: exports, then part
statements, then platform imports, then same project package imports, then
other package imports, then relative imports.  The index gives the position
of the bucket in the emitted order: platform first, then third party
packages, then same project packages, then relative imports, then exports,
then part statements. -/
def classifyStmt (workspace : Option String) (s : String) : Nat :=
  if sStartsWith s "export" then 4
  else if sStartsWith s "part" then 5
  else if sIncludes s "dart:" then 0
  else if isLocalPackage workspace s then 2
  else if sIncludes s "package:" then 1
  else 3

/-- Six buckets of directive statements built by the partition loop of the
source getter formatted. -/
structure ImportBuckets where
  dartImports : List String
  packageImports : List String
  packageLocalImports : List String
  relativeImports : List String
  exports : List String
  partStatements : List String

/-- The empty buckets. -/
def emptyBuckets : ImportBuckets :=
  { dartImports := [], packageImports := [], packageLocalImports := [],
    relativeImports := [], exports := [], partStatements := [] }

/-- One step of the partition loop of the source getter formatted: push the
statement at the end of the bucket selected by the if chain. -/
def bucketPush (workspace : Option String) (b : ImportBuckets) (statement : String) :
    ImportBuckets :=
  if sStartsWith statement "export" then { b with exports := b.exports ++ [statement] }
  else if sStartsWith statement "part" then
    { b with partStatements := b.partStatements ++ [statement] }
  else if sIncludes statement "dart:" then
    { b with dartImports := b.dartImports ++ [statement] }
  else if isLocalPackage workspace statement then
    { b with packageLocalImports := b.packageLocalImports ++ [statement] }
  else if sIncludes statement "package:" then
    { b with packageImports := b.packageImports ++ [statement] }
  else { b with relativeImports := b.relativeImports ++ [statement] }

/-- Partition loop of the source getter formatted. -/
def partitionImports (workspace : Option String) (vals : List String) : ImportBuckets :=
  vals.foldl (bucketPush workspace) emptyBuckets

/-- Emission loop of the addImports helper of the source getter formatted:
every statement followed by a newline, and one extra newline after the last
statement of a non empty list. -/
def addStatementsLoop : List String → String
  | [] => ""
  | [s] => s ++ "\n" ++ "\n"
  | s :: y :: rest => s ++ "\n" ++ addStatementsLoop (y :: rest)

/-- The addImports helper of the source getter formatted: sort, then emit. -/
def addImports (statements : List String) : String :=
  addStatementsLoop (sortStrings statements)

namespace Imports

/-- The source getter formatted, with the resolved workspace name passed in
as a value: the source resolves it from the stored project name, falling
back to the name of the workspace folder of the host editor, a concern of
the excluded host layer.  An import block without directives formats to the
empty string; otherwise the six buckets are partitioned, sorted, emitted in
the fixed order and the final newline is stripped. -/
def formattedWith (workspace : Option String) (imp : Imports) : String :=
  if !imp.hasImports then ""
  else
    let b := partitionImports workspace imp.values
    removeEnd
      (addImports b.dartImports ++ addImports b.packageImports ++
        addImports b.packageLocalImports ++ addImports b.relativeImports ++
        addImports b.exports ++ addImports b.partStatements) "\n"

/-- The source getter shouldChange, with the resolved workspace name passed
in as a value: the raw captured text is compared against the formatted
text. -/
def shouldChangeWith (workspace : Option String) (imp : Imports) : Bool :=
  !areStrictEqual imp.rawStatements (formattedWith workspace imp)

end Imports

/-- Text of one bucket: nothing for an empty bucket, otherwise every
statement followed by a newline and then the newline of the blank
separator line. -/
def chunkOf (l : List String) : String :=
  if l.isEmpty then "" else joinLines l ++ "\n"

/-- The six buckets of the spec in emission order, each sorted: platform
directives, third party package directives, same project package
directives, relative directives, exports, part statements. -/
def specBuckets (workspace : Option String) (vals : List String) : List (List String) :=
  [sortStrings (vals.filter (fun s => classifyStmt workspace s = 0)),
   sortStrings (vals.filter (fun s => classifyStmt workspace s = 1)),
   sortStrings (vals.filter (fun s => classifyStmt workspace s = 2)),
   sortStrings (vals.filter (fun s => classifyStmt workspace s = 3)),
   sortStrings (vals.filter (fun s => classifyStmt workspace s = 4)),
   sortStrings (vals.filter (fun s => classifyStmt workspace s = 5))]

/-- Concatenated text of a list of buckets. -/
def textOfBuckets (bs : List (List String)) : String :=
  strConcat (bs.map chunkOf)

/-- Lines of the emitted text of a list of buckets, after the final newline
has been stripped: the statements of each non empty bucket followed by one
empty line. -/
def linesOfBuckets (bs : List (List String)) : List String :=
  bs.foldr (fun b acc => if b.isEmpty then acc else b ++ "" :: acc) []

/-- Formatted import block as worded by the spec: directives are
partitioned into six buckets, namely platform directives, third party
package directives, same project package directives, relative directives,
exports and part statements; each bucket is alphabetically sorted, emitted
in that fixed order, each non empty bucket is followed by one blank line,
and the trailing blank line is stripped. -/
def formattedSpec (workspace : Option String) (vals : List String) : String :=
  removeEnd (textOfBuckets (specBuckets workspace vals)) "\n"

/-- Shape of every directive statement collected by the reading loop: it is
its own trim, it spans a single line, and it starts with one of the three
directive keywords. -/
def saneStmt (v : String) : Bool :=
  decide (sTrim v = v) && decide (¬ '\n' ∈ v.data) && stmtStart v

/-- Concrete class model used to exercise the replacement generation: a
class of four source lines, one recorded property, and no planned
replacements. -/
def c1ExampleClass : DartClass :=
  { baseClass with
      name := "Foo"
      classContent := "class Foo \x7b\n  final int a;\n  int other;\n\x7d"
      properties := [{ mkProperty "int" "a" with lineNumber := 11 }]
      startsAtLine := some 10
      endsAtLine := some 13 }

theorem str_mk_data (s : String) : (⟨s.data⟩ : String) = s := rfl

theorem str_mk_append (a b : List Char) : (⟨a ++ b⟩ : String) = (⟨a⟩ : String) ++ (⟨b⟩ : String) := rfl

theorem str_append_assoc (a b c : String) : a ++ b ++ c = a ++ (b ++ c) := by
  apply String.ext
  simp [String.data_append, List.append_assoc]

theorem str_append_empty (s : String) : s ++ "" = s := by
  apply String.ext
  rw [String.data_append]
  exact List.append_nil _

theorem str_empty_append (s : String) : "" ++ s = s := by
  apply String.ext
  rw [String.data_append]
  exact List.nil_append _

theorem removeEnd_split (a k e : String) : removeEnd (a ++ (k ++ e)) e = a ++ k := by
  have hdata : (a ++ (k ++ e)).data = (a.data ++ k.data) ++ e.data := by
    simp [String.data_append, List.append_assoc]
  have hlen : (a ++ (k ++ e)).data.length - e.data.length = (a.data ++ k.data).length := by
    rw [hdata]
    simp [List.length_append]
    omega
  have hends : sEndsWith (a ++ (k ++ e)) e = true := by
    unfold sEndsWith
    rw [hlen, hdata, List.drop_left]
    simp
  unfold removeEnd
  simp only [hends, if_true]
  apply String.ext
  show (a ++ (k ++ e)).data.take ((a ++ (k ++ e)).data.length - e.data.length) = (a ++ k).data
  rw [hlen, hdata, List.take_left, String.data_append]

theorem removeEnd_newline_mid (p L r : String) :
    ∃ suf, removeEnd (p ++ (L ++ "\n") ++ r) "\n" = (p ++ L) ++ suf := by
  have hdata : (p ++ (L ++ "\n") ++ r).data = (p.data ++ L.data) ++ ('\n' :: r.data) := by
    simp [String.data_append, List.append_assoc]
  by_cases h : sEndsWith (p ++ (L ++ "\n") ++ r) "\n" = true
  · refine ⟨⟨('\n' :: r.data).take r.data.length⟩, ?_⟩
    unfold removeEnd
    simp only [h, if_true]
    apply String.ext
    show (p ++ (L ++ "\n") ++ r).data.take ((p ++ (L ++ "\n") ++ r).data.length - "\n".data.length)
      = ((p ++ L) ++ (⟨('\n' :: r.data).take r.data.length⟩ : String)).data
    have hlen : (p ++ (L ++ "\n") ++ r).data.length - "\n".data.length
        = (p.data ++ L.data).length + r.data.length := by
      rw [hdata]
      simp [List.length_append]
      omega
    rw [hlen, hdata, List.take_append_eq_append_take,
      List.take_of_length_le (by omega), String.data_append, String.data_append]
    congr 1
    congr 1
    omega
  · refine ⟨"\n" ++ r, ?_⟩
    unfold removeEnd
    simp only [h, if_false]
    apply String.ext
    simp [String.data_append, List.append_assoc]

theorem uniqueLoop_eq_true_iff :
    ∀ (l seen : List String), DartClass.uniqueLoop l seen = true ↔ l.Nodup ∧ ∀ x ∈ l, x ∉ seen := by
  intro l
  induction l with
  | nil => intro seen; simp [DartClass.uniqueLoop]
  | cons n rest ih =>
    intro seen
    by_cases hmem : n ∈ seen
    · simp only [DartClass.uniqueLoop, if_pos hmem]
      constructor
      · intro h; exact absurd h (by simp)
      · rintro ⟨-, hall⟩
        exact absurd hmem (hall n (List.mem_cons_self n rest))
    · simp only [DartClass.uniqueLoop, if_neg hmem]
      rw [ih (seen ++ [n])]
      constructor
      · rintro ⟨hnd, hall⟩
        have hnotin : n ∉ rest := by
          intro hn
          exact (hall n hn) (by simp)
        refine ⟨List.nodup_cons.mpr ⟨hnotin, hnd⟩, ?_⟩
        intro x hx
        rcases List.mem_cons.mp hx with rfl | hx
        · exact hmem
        · intro hxs
          exact (hall x hx) (List.mem_append_left _ hxs)
      · rintro ⟨hnd, hall⟩
        have hpair := List.nodup_cons.mp hnd
        refine ⟨hpair.2, ?_⟩
        intro x hx hxmem
        rcases List.mem_append.mp hxmem with hxs | hxn
        · exact (hall x (List.mem_cons_of_mem _ hx)) hxs
        · rcases List.mem_singleton.mp hxn with rfl
          exact hpair.1 hx

/-- Claim C3: a class is valid exactly when its start was detected, its
ending was found, it has at least one property, and the property names are
pairwise distinct; in particular a class whose property list contains two
properties with the same stored name is never valid, whatever the other
attributes are. -/
theorem c3_isValid_iff :
    ∀ c : DartClass,
      (c.isValid = true ↔
        c.startsAtLine ≠ none ∧ c.endsAtLine ≠ none ∧ c.properties ≠ [] ∧
          (c.properties.map DartClassProperty.name).Nodup) ∧
      (∀ (l1 l2 l3 : List DartClassProperty) (p q : DartClassProperty),
        c.properties = l1 ++ p :: (l2 ++ q :: l3) → p.name = q.name → c.isValid = false) := by
  intro c
  have hmain : c.isValid = true ↔
      c.startsAtLine ≠ none ∧ c.endsAtLine ≠ none ∧ c.properties ≠ [] ∧
        (c.properties.map DartClassProperty.name).Nodup := by
    unfold DartClass.isValid DartClass.classDetected DartClass.hasEnding
      DartClass.hasProperties DartClass.uniquePropNames
    rw [Bool.and_eq_true, Bool.and_eq_true, Bool.and_eq_true, uniqueLoop_eq_true_iff]
    simp [Option.isSome_iff_ne_none, List.isEmpty_iff, and_assoc]
  refine ⟨hmain, ?_⟩
  intro l1 l2 l3 p q hc hname
  cases hv : c.isValid with
  | false => rfl
  | true =>
    exfalso
    have hnd := (hmain.mp hv).2.2.2
    rw [hc] at hnd
    simp only [List.map_append, List.map_cons] at hnd
    have hsub : List.Sublist (p.name :: (l2.map DartClassProperty.name ++
        q.name :: l3.map DartClassProperty.name))
        (l1.map DartClassProperty.name ++ p.name :: (l2.map DartClassProperty.name ++
          q.name :: l3.map DartClassProperty.name)) :=
      List.sublist_append_right _ _
    have hnd2 := List.Nodup.sublist hsub hnd
    have hnotin := (List.nodup_cons.mp hnd2).1
    apply hnotin
    rw [hname]
    exact List.mem_append_right _ (List.mem_cons_self _ _)

/-- Witness for claim C3 at a concrete class with two properties that share
the stored name. -/
theorem c3_witness :
    DartClass.isValid
      { baseClass with
          startsAtLine := some 1
          endsAtLine := some 3
          properties := [mkProperty "int" "id", mkProperty "String" "id"] } = false :=
  (c3_isValid_iff _).2 [] [] [] (mkProperty "int" "id") (mkProperty "String" "id") rfl rfl

/-- Claim C4: the issue message follows the fixed priority list, reporting
missing properties first, then a missing ending, then duplicate property
names, and otherwise the generic fallback; the message is a total function
of the class model, so producing it never throws. -/
theorem c4_issue_priority : ∀ c : DartClass, c.issue = issueSpec c := by
  intro c
  unfold DartClass.issue issueSpec DartClass.hasProperties DartClass.hasEnding
  by_cases h1 : c.properties.isEmpty
  · simp [h1]
    rw [str_append_assoc]
    exact congrArg (fun x => c.name ++ x) (by decide)
  · by_cases h2 : c.endsAtLine = none
    · simp [h1, h2]
      rw [str_append_assoc]
      exact congrArg (fun x => c.name ++ x) (by decide)
    · have h2s : c.endsAtLine.isSome = true := by
        cases he : c.endsAtLine with
        | none => exact absurd he h2
        | some v => rfl
      by_cases h3 : c.uniquePropNames = true
      · simp [h1, h2, h2s, h3]
        have hsplit : (" couldn\x27t be converted to a data class: " : String)
            = " couldn\x27t be converted to a data class" ++ ": " := by decide
        rw [hsplit, removeEnd_split, str_append_assoc]
        exact congrArg (fun x => c.name ++ x) (by decide)
      · simp [h1, h2, h2s, h3]
        rw [str_append_assoc]
        exact congrArg (fun x => c.name ++ x) (by decide)

/-- Claim C7: the default value literal is the constant empty list for a
list property, the constant empty braces for a map or set property, and
otherwise the value of the fixed table keyed by the base type; the property
with declared type list of int is a list, has element type int, and has the
constant empty list as default value. -/
theorem c7_defValue_table :
    (∀ p : DartClassProperty, p.defValue = defValueSpec p) ∧
      (mkProperty "List<int>" "values").isList = true ∧
      ((mkProperty "List<int>" "values").listType).type = "int" ∧
      (mkProperty "List<int>" "values").defValue = "const []" := by
  refine ⟨fun p => ?_, by decide, by decide, by decide⟩
  unfold DartClassProperty.defValue defValueSpec defaultValueTable
  rfl

/-- Claim C8: a property is primitive exactly when its element type, taken
through the listType getter which resolves list and set element types and
otherwise yields the base type, is one of the six primitive type names, or
the property is a map. -/
theorem c8_isPrimitive_iff :
    ∀ p : DartClassProperty,
      p.isPrimitive = true ↔
        (p.listType.type = "String" ∨ p.listType.type = "num" ∨
          p.listType.type = "dynamic" ∨ p.listType.type = "bool" ∨
          p.listType.type = "int" ∨ p.listType.type = "double" ∨ p.isMap = true) := by
  intro p
  unfold DartClassProperty.isPrimitive DartClassProperty.isInt DartClassProperty.isDouble
  simp only [Bool.or_eq_true, decide_eq_true_eq]
  tauto

/-- Counterexample for claim C9: a constructor text that contains the const
keyword in the middle rather than as a leading keyword.  The source getter
removes the first occurrence of the keyword anywhere in the text, so it
accepts this constructor text, while the claimed reading, stripping only a
leading keyword, rejects it. -/
theorem c9_counterexample :
    DartClass.hasNamedConstructor
        { baseClass with name := "A", constr := some "Aconst(\x7b" } = true ∧
      namedConstructorClaim "A" "Aconst(\x7b" = false := by decide

/-- Claim C9 as amended: with a stored constructor text, the getter is true
exactly when the text, after removal of the first occurrence of the const
keyword anywhere and trimming of leading whitespace, begins with the class
name followed by an opening parenthesis and brace. -/
theorem c9_hasNamedConstructor_amended :
    ∀ (c : DartClass) (t : String), c.constr = some t →
      (c.hasNamedConstructor = true ↔
        sStartsWith (sTrimLeft (sReplaceFirst t "const" "")) (c.name ++ "(\x7b") = true) := by
  intro c t h
  unfold DartClass.hasNamedConstructor
  rw [h]

/-- Witness for the amended claim C9 at a concrete constructor text. -/
theorem c9_amended_witness :
    DartClass.hasNamedConstructor
        { baseClass with name := "Foo", constr := some "const Foo(\x7bthis.a\x7d);" } = true ↔
      sStartsWith (sTrimLeft (sReplaceFirst "const Foo(\x7bthis.a\x7d);" "const" ""))
        ("Foo" ++ "(\x7b") = true :=
  c9_hasNamedConstructor_amended _ _ rfl

/-- Claim C10: a class without a stored constructor text reports a named
constructor. -/
theorem c10_no_constructor_named :
    ∀ c : DartClass, c.constr = none → c.hasNamedConstructor = true := by
  intro c h
  unfold DartClass.hasNamedConstructor
  rw [h]

/-- Witness for claim C10 at the freshly constructed class model. -/
theorem c10_witness : DartClass.hasNamedConstructor baseClass = true :=
  c10_no_constructor_named baseClass rfl

theorem genStep_prepend (c : DartClass) (lines : List String) (i : Int) (acc : String) :
    ∃ pre, DartClass.genStep c lines i acc = pre ++ acc := by
  simp only [DartClass.genStep]
  split
  · exact ⟨DartClass.classDeclarationOf c, rfl⟩
  · split
    · exact ⟨lines.getD i.toNat "undefined" ++ "\n" ++ c.constr.getD "",
        (str_append_assoc (lines.getD i.toNat "undefined" ++ "\n") (c.constr.getD "") acc).symm⟩
    · split
      · exact ⟨c.toInsert ++ (lines.getD i.toNat "undefined" ++ "\n"),
          (str_append_assoc c.toInsert (lines.getD i.toNat "undefined" ++ "\n") acc).symm⟩
      · split
        · rename_i rp heq
          split
          · exact ⟨"", (str_empty_append acc).symm⟩
          · exact ⟨rp ++ "\n", rfl⟩
        · exact ⟨lines.getD i.toNat "undefined" ++ "\n", rfl⟩

theorem genSteps_prepend (c : DartClass) (lines : List String) (N : Int) :
    ∀ (k m : Nat), m ≤ k →
      ∃ pre, DartClass.genSteps c lines N k = pre ++ DartClass.genSteps c lines N m := by
  intro k
  induction k with
  | zero =>
    intro m hm
    have hm0 : m = 0 := Nat.le_zero.mp hm
    subst hm0
    exact ⟨"", (str_empty_append _).symm⟩
  | succ k ih =>
    intro m hm
    rcases Nat.lt_or_ge m (k + 1) with hlt | hge
    · obtain ⟨p1, hp1⟩ := genStep_prepend c lines (N - k) (DartClass.genSteps c lines N k)
      obtain ⟨p2, hp2⟩ := ih m (Nat.lt_succ_iff.mp hlt)
      refine ⟨p1 ++ p2, ?_⟩
      show DartClass.genStep c lines (N - k) (DartClass.genSteps c lines N k)
        = p1 ++ p2 ++ DartClass.genSteps c lines N m
      rw [hp1, hp2, str_append_assoc]
    · have hmk : m = k + 1 := Nat.le_antisymm hm hge
      subst hmk
      exact ⟨"", (str_empty_append _).symm⟩

/-- Claim C1: every source line of the class that is not the header line,
not the closing line, not the line at which a synthesised constructor is
inserted, and not covered by any planned replacement span, is copied byte
for byte from the split class content into the accumulated replacement,
and therefore appears byte for byte inside the final output of
generateClassReplacement. -/
theorem c1_untouched_lines_copied
    (c : DartClass) (s e : Int) (i : Nat)
    (hs : c.startsAtLine = some s) (he : c.endsAtLine = some e)
    (hse : s ≤ e)
    (hi1 : 1 ≤ i) (hiN : (i : Int) ≤ e - s)
    (hctor : ¬(s + (i : Int) = c.propsEndAtLine ∧ c.constr.isSome = true ∧
      c.hasConstructor = false))
    (hclose : s + (i : Int) ≠ e)
    (hcover : ∀ part ∈ c.toReplace,
      ¬(part.startsAt.getD 0 ≤ s + (i : Int) ∧ s + (i : Int) ≤ part.endsAt.getD 0)) :
    (∃ pre, DartClass.genSteps c (splitNlStr c.classContent) (e - s) ((e - s) + 1).toNat
        = pre ++ (((splitNlStr c.classContent).getD i "undefined" ++ "\n")
            ++ DartClass.genSteps c (splitNlStr c.classContent) (e - s) ((e - s) - i).toNat))
    ∧ ∃ pre2 suf2, c.generateClassReplacement
        = pre2 ++ (splitNlStr c.classContent).getD i "undefined" ++ suf2 := by
  have hrp : c.replacementAtLine (s + (i : Int)) = none := by
    unfold DartClass.replacementAtLine
    cases hf : c.toReplace.find? (DartClass.coversLine (s + (i : Int))) with
    | none => rfl
    | some part =>
      exfalso
      have hcond := List.find?_some hf
      have hin := List.mem_of_find?_eq_some hf
      unfold DartClass.coversLine at hcond
      simp only [Bool.and_eq_true, decide_eq_true_eq] at hcond
      exact hcover part hin hcond
  have hstep : ∀ acc, DartClass.genStep c (splitNlStr c.classContent) (i : Int) acc
      = ((splitNlStr c.classContent).getD i "undefined" ++ "\n") ++ acc := by
    intro acc
    have hi0 : ¬((i : Int) = 0) := by omega
    simp only [DartClass.genStep, hs, he, Option.getD_some, Int.toNat_natCast]
    rw [if_neg hi0, if_neg hctor, if_neg ?hc3, hrp]
    case hc3 =>
      rintro ⟨hee, -⟩
      exact hclose (Option.some.inj hee).symm
  have hKcast : (((e - s) - i).toNat : Int) = (e - s) - i := Int.toNat_of_nonneg (by omega)
  have hstepK : DartClass.genSteps c (splitNlStr c.classContent) (e - s) (((e - s) - i).toNat + 1)
      = ((splitNlStr c.classContent).getD i "undefined" ++ "\n")
          ++ DartClass.genSteps c (splitNlStr c.classContent) (e - s) ((e - s) - i).toNat := by
    show DartClass.genStep c (splitNlStr c.classContent)
        ((e - s) - (((e - s) - i).toNat : Int))
        (DartClass.genSteps c (splitNlStr c.classContent) (e - s) ((e - s) - i).toNat) = _
    rw [hKcast, show (e - s) - ((e - s) - (i : Int)) = (i : Int) by omega]
    exact hstep _
  obtain ⟨pre, hpre⟩ := genSteps_prepend c (splitNlStr c.classContent) (e - s)
    ((e - s) + 1).toNat (((e - s) - i).toNat + 1) (by omega)
  rw [hstepK] at hpre
  refine ⟨⟨pre, hpre⟩, ?_⟩
  have hgen : c.generateClassReplacement
      = removeEnd (DartClass.genSteps c (splitNlStr c.classContent) (e - s)
          ((e - s) + 1).toNat) "\n" := by
    simp only [DartClass.generateClassReplacement, hs, he, Option.getD_some]
  obtain ⟨suf, hsuf⟩ := removeEnd_newline_mid pre ((splitNlStr c.classContent).getD i "undefined")
    (DartClass.genSteps c (splitNlStr c.classContent) (e - s) ((e - s) - i).toNat)
  refine ⟨pre, suf, ?_⟩
  rw [hgen, hpre, ← str_append_assoc]
  exact hsuf

/-- Witness for claim C1 at a concrete class model, copying the third
source line, which is neither header, closing line, constructor insertion
point, nor covered by a replacement span. -/
theorem c1_witness :
    (∃ pre, DartClass.genSteps c1ExampleClass (splitNlStr c1ExampleClass.classContent)
        ((13 : Int) - 10) (((13 : Int) - 10) + 1).toNat
        = pre ++ (((splitNlStr c1ExampleClass.classContent).getD 2 "undefined" ++ "\n")
            ++ DartClass.genSteps c1ExampleClass (splitNlStr c1ExampleClass.classContent)
                ((13 : Int) - 10) (((13 : Int) - 10) - 2).toNat))
    ∧ ∃ pre2 suf2, c1ExampleClass.generateClassReplacement
        = pre2 ++ (splitNlStr c1ExampleClass.classContent).getD 2 "undefined" ++ suf2 :=
  c1_untouched_lines_copied c1ExampleClass 10 13 2 rfl rfl (by decide) (by decide)
    (by decide) (by decide) (by decide) (by decide)

theorem addStatementsLoop_eq (l : List String) :
    addStatementsLoop l = if l.isEmpty then "" else joinLines l ++ "\n" := by
  induction l with
  | nil => rfl
  | cons s rest ih =>
    cases rest with
    | nil =>
      show s ++ "\n" ++ "\n" = joinLines [s] ++ "\n"
      show s ++ "\n" ++ "\n" = ((s ++ "\n") ++ "") ++ "\n"
      rw [str_append_empty]
    | cons y t =>
      show s ++ "\n" ++ addStatementsLoop (y :: t) = joinLines (s :: y :: t) ++ "\n"
      rw [ih]
      show s ++ "\n" ++ (joinLines (y :: t) ++ "\n") = ((s ++ "\n") ++ joinLines (y :: t)) ++ "\n"
      simp [str_append_assoc]

theorem addImports_eq_chunk (l : List String) :
    addImports l = chunkOf (sortStrings l) := by
  rw [addImports, addStatementsLoop_eq]
  rfl

theorem partition_foldl (w : Option String) :
    ∀ (vals : List String) (b : ImportBuckets),
      vals.foldl (bucketPush w) b =
        { dartImports := b.dartImports ++ vals.filter (fun s => classifyStmt w s = 0)
          packageImports := b.packageImports ++ vals.filter (fun s => classifyStmt w s = 1)
          packageLocalImports := b.packageLocalImports ++ vals.filter (fun s => classifyStmt w s = 2)
          relativeImports := b.relativeImports ++ vals.filter (fun s => classifyStmt w s = 3)
          exports := b.exports ++ vals.filter (fun s => classifyStmt w s = 4)
          partStatements := b.partStatements ++ vals.filter (fun s => classifyStmt w s = 5) } := by
  intro vals
  induction vals with
  | nil =>
    intro b
    simp only [List.foldl_nil, List.filter_nil, List.append_nil]
  | cons s rest ih =>
    intro b
    show List.foldl (bucketPush w) (bucketPush w b s) rest = _
    rw [ih]
    by_cases h1 : sStartsWith s "export" = true
    · have hc : classifyStmt w s = 4 := by simp [classifyStmt, h1]
      simp [bucketPush, h1, List.filter_cons, hc, List.append_assoc]
    · by_cases h2 : sStartsWith s "part" = true
      · have hc : classifyStmt w s = 5 := by simp [classifyStmt, h1, h2]
        simp [bucketPush, h1, h2, List.filter_cons, hc, List.append_assoc]
      · by_cases h3 : sIncludes s "dart:" = true
        · have hc : classifyStmt w s = 0 := by simp [classifyStmt, h1, h2, h3]
          simp [bucketPush, h1, h2, h3, List.filter_cons, hc, List.append_assoc]
        · by_cases h4 : isLocalPackage w s = true
          · have hc : classifyStmt w s = 2 := by simp [classifyStmt, h1, h2, h3, h4]
            simp [bucketPush, h1, h2, h3, h4, List.filter_cons, hc, List.append_assoc]
          · by_cases h5 : sIncludes s "package:" = true
            · have hc : classifyStmt w s = 1 := by simp [classifyStmt, h1, h2, h3, h4, h5]
              simp [bucketPush, h1, h2, h3, h4, h5, List.filter_cons, hc, List.append_assoc]
            · have hc : classifyStmt w s = 3 := by simp [classifyStmt, h1, h2, h3, h4, h5]
              simp [bucketPush, h1, h2, h3, h4, h5, List.filter_cons, hc, List.append_assoc]

theorem formattedWith_eq_spec (w : Option String) (imp : Imports) :
    Imports.formattedWith w imp = formattedSpec w imp.values := by
  unfold Imports.formattedWith formattedSpec Imports.hasImports partitionImports
  by_cases hv : imp.values.isEmpty
  · have hnil : imp.values = [] := List.isEmpty_iff.mp hv
    rw [hnil]
    rfl
  · simp only [hv, Bool.not_false, Bool.not_true, if_false, ite_false, Bool.false_eq_true]
    rw [partition_foldl]
    simp only [addImports_eq_chunk]
    congr 1
    simp only [emptyBuckets, List.nil_append]
    unfold textOfBuckets specBuckets strConcat
    simp only [List.map_cons, List.map_nil, List.foldr_cons, List.foldr_nil]
    simp [str_append_assoc, str_append_empty]

/-- Claim C5: the formatted import block partitions the directives into the
six buckets in the fixed order, platform directives, third party package
directives, same project package directives, relative directives, exports,
part statements, each bucket sorted, each non empty bucket followed by one blank
line, and the trailing blank line stripped; in particular the two line
block of the flutter package import and the dart async import formats to
the dart async import first, one blank line, then the package import. -/
theorem c5_formatted_buckets :
    (∀ (w : Option String) (imp : Imports),
      Imports.formattedWith w imp = formattedSpec w imp.values) ∧
    Imports.formattedWith none
        (Imports.readImports
          "import \x27package:flutter/material.dart\x27;\nimport \x27dart:async\x27;" none)
      = "import \x27dart:async\x27;\n\nimport \x27package:flutter/material.dart\x27;\n" :=
  ⟨fun w imp => formattedWith_eq_spec w imp, by decide⟩

theorem splitNl_ne_nil (l : List Char) : splitNl l ≠ [] := by
  induction l with
  | nil => simp [splitNl]
  | cons c cs ih =>
    by_cases hc : c = '\n'
    · simp [splitNl, hc]
    · simp only [splitNl, if_neg hc]
      cases hm : splitNl cs with
      | nil => simp
      | cons h t => simp

theorem splitNl_cons_append (a : List Char) (ha : ¬ '\n' ∈ a) (r : List Char) :
    splitNl (a ++ '\n' :: r) = a :: splitNl r := by
  induction a with
  | nil => simp [splitNl]
  | cons c cs ih =>
    have hc : ¬ c = '\n' := fun h => ha (h ▸ List.mem_cons_self c cs)
    have ha2 : ¬ '\n' ∈ cs := fun h => ha (List.mem_cons_of_mem c h)
    simp only [List.cons_append, splitNl, if_neg hc, List.append_eq]
    rw [ih ha2]

theorem splitNl_append_last_newline (x : List Char) :
    splitNl (x ++ ['\n']) = splitNl x ++ [[]] := by
  induction x with
  | nil => rfl
  | cons c cs ih =>
    by_cases hc : c = '\n'
    · subst hc
      simp only [List.cons_append, splitNl, if_pos rfl, List.append_eq]
      rw [ih]
      rfl
    · simp only [List.cons_append, splitNl, if_neg hc, List.append_eq]
      rw [ih]
      cases hm : splitNl cs with
      | nil => exact absurd hm (splitNl_ne_nil cs)
      | cons h t => simp

theorem splitNl_no_newline (l : List Char) : ∀ piece ∈ splitNl l, ¬ '\n' ∈ piece := by
  induction l with
  | nil =>
    intro piece hp
    simp [splitNl] at hp
    simp [hp]
  | cons c cs ih =>
    intro piece hp
    by_cases hc : c = '\n'
    · rw [hc] at hp
      simp only [splitNl, if_pos rfl] at hp
      rcases List.mem_cons.mp hp with rfl | hp2
      · simp
      · exact ih piece hp2
    · simp only [splitNl, if_neg hc] at hp
      cases hm : splitNl cs with
      | nil => exact absurd hm (splitNl_ne_nil cs)
      | cons h t =>
        rw [hm] at hp
        rcases List.mem_cons.mp hp with rfl | hp2
        · intro hmem
          rcases List.mem_cons.mp hmem with h1 | h1
          · exact hc h1.symm
          · exact ih h (hm ▸ List.mem_cons_self h t) h1
        · exact ih piece (hm ▸ List.mem_cons_of_mem h hp2)

theorem mem_of_mem_dropWhile {x : Char} (p : Char → Bool) :
    ∀ l : List Char, x ∈ l.dropWhile p → x ∈ l := by
  intro l
  induction l with
  | nil => intro h; simpa using h
  | cons c cs ih =>
    intro h
    by_cases hc : p c = true
    · rw [List.dropWhile_cons_of_pos hc] at h
      exact List.mem_cons_of_mem c (ih h)
    · rw [List.dropWhile_cons_of_neg hc] at h
      exact h

theorem mem_of_mem_sTrim {x : Char} (s : String) (h : x ∈ (sTrim s).data) : x ∈ s.data := by
  unfold sTrim sTrimRight sTrimLeft at h
  simp only [List.mem_reverse] at h
  have h2 := mem_of_mem_dropWhile isWsChar _ h
  rw [List.mem_reverse] at h2
  exact mem_of_mem_dropWhile isWsChar _ h2

theorem dropWhile_dropWhile (p : Char → Bool) :
    ∀ l : List Char, (l.dropWhile p).dropWhile p = l.dropWhile p := by
  intro l
  induction l with
  | nil => rfl
  | cons c cs ih =>
    by_cases hc : p c = true
    · rw [List.dropWhile_cons_of_pos hc]
      exact ih
    · rw [List.dropWhile_cons_of_neg hc, List.dropWhile_cons_of_neg hc]

theorem dropWhile_length_le (p : Char → Bool) :
    ∀ l : List Char, (l.dropWhile p).length ≤ l.length := by
  intro l
  induction l with
  | nil => simp
  | cons c cs ih =>
    by_cases hc : p c = true
    · rw [List.dropWhile_cons_of_pos hc]
      exact Nat.le_succ_of_le ih
    · rw [List.dropWhile_cons_of_neg hc]

theorem dropWhile_eq_self_of_fixed (p : Char → Bool) (l d : List Char)
    (hfix : l.dropWhile p = l) (hpre : d.isPrefixOf l = true) :
    d.dropWhile p = d := by
  cases d with
  | nil => rfl
  | cons x rest =>
    cases l with
    | nil => simp [List.isPrefixOf] at hpre
    | cons y t =>
      have hxy : x = y ∧ rest.isPrefixOf t = true := by
        simpa [List.isPrefixOf] using hpre
      have hpx : p y = false := by
        by_contra hp
        have hp2 : p y = true := by
          cases hv : p y with
          | false => exact absurd hv hp
          | true => rfl
        rw [List.dropWhile_cons_of_pos hp2] at hfix
        have := dropWhile_length_le p t
        have := congrArg List.length hfix
        simp at this
        omega
      rw [hxy.1, List.dropWhile_cons_of_neg (by simp [hpx])]

theorem isPrefixOf_append_self : ∀ (a b : List Char), a.isPrefixOf (a ++ b) = true := by
  intro a b
  induction a with
  | nil => simp
  | cons c cs ih => simpa using ih

theorem sTrim_idem (s : String) : sTrim (sTrim s) = sTrim s := by
  apply String.ext
  show ((((s.data.dropWhile isWsChar).reverse.dropWhile isWsChar).reverse.dropWhile
      isWsChar).reverse.dropWhile isWsChar).reverse
    = ((s.data.dropWhile isWsChar).reverse.dropWhile isWsChar).reverse
  have hfix1 : (s.data.dropWhile isWsChar).dropWhile isWsChar = s.data.dropWhile isWsChar :=
    dropWhile_dropWhile _ _
  have hsplit : s.data.dropWhile isWsChar
      = ((s.data.dropWhile isWsChar).reverse.dropWhile isWsChar).reverse
        ++ ((s.data.dropWhile isWsChar).reverse.takeWhile isWsChar).reverse := by
    conv_lhs =>
      rw [← List.reverse_reverse (s.data.dropWhile isWsChar),
        ← List.takeWhile_append_dropWhile (p := isWsChar)
          (l := (s.data.dropWhile isWsChar).reverse)]
    rw [List.reverse_append]
  have hpre : (((s.data.dropWhile isWsChar).reverse.dropWhile isWsChar).reverse).isPrefixOf
      (s.data.dropWhile isWsChar) = true := by
    have h0 := isPrefixOf_append_self
      (((s.data.dropWhile isWsChar).reverse.dropWhile isWsChar).reverse)
      (((s.data.dropWhile isWsChar).reverse.takeWhile isWsChar).reverse)
    rw [← hsplit] at h0
    exact h0
  have hstep1 : (((s.data.dropWhile isWsChar).reverse.dropWhile isWsChar).reverse).dropWhile
      isWsChar = ((s.data.dropWhile isWsChar).reverse.dropWhile isWsChar).reverse :=
    dropWhile_eq_self_of_fixed _ _ _ hfix1 hpre
  rw [hstep1, List.reverse_reverse, dropWhile_dropWhile]

theorem saneStmt_of_trim (line : String) (hnl : ¬ '\n' ∈ line.data)
    (hst : stmtStart (sTrim line) = true) : saneStmt (sTrim line) = true := by
  unfold saneStmt
  rw [sTrim_idem]
  simp only [hst, Bool.and_true, Bool.and_eq_true, decide_eq_true_eq]
  exact ⟨trivial, fun hm => hnl (mem_of_mem_sTrim line hm)⟩

theorem readGo_values_sane :
    ∀ (L : List String), (∀ line ∈ L, ¬ '\n' ∈ line.data) →
      ∀ (prev : Option String) (i : Nat) (st : Imports),
        (∀ v ∈ st.values, saneStmt v = true) →
        ∀ v ∈ (Imports.readGo prev i st L).values, saneStmt v = true := by
  intro L
  induction L with
  | nil =>
    intro _ prev i st hst v hv
    exact hst v hv
  | cons rawLine rest ih =>
    intro hL prev i st hst v hv
    have hraw : ¬ '\n' ∈ rawLine.data := hL rawLine (List.mem_cons_self _ _)
    have hrest : ∀ line ∈ rest, ¬ '\n' ∈ line.data :=
      fun l hl => hL l (List.mem_cons_of_mem _ hl)
    have hst1 : ∀ u ∈ st.values ++ [sTrim rawLine],
        stmtStart (sTrim rawLine) = true → saneStmt u = true := by
      intro u hu hkw
      rcases List.mem_append.mp hu with h | h
      · exact hst u h
      · rcases List.mem_singleton.mp h with rfl
        exact saneStmt_of_trim rawLine hraw hkw
    simp only [Imports.readGo] at hv
    by_cases hm : stmtStart (sTrim rawLine) = true
    · rw [if_pos hm] at hv
      by_cases hlast : rest.isEmpty = true
      · rw [if_pos hlast] at hv
        exact hst1 v hv (by exact hm)
      · rw [if_neg hlast] at hv
        exact ih hrest _ _ _ (fun u hu => hst1 u hu hm) v hv
    · rw [if_neg hm] at hv
      by_cases hc2 : (rest.isEmpty
          || !(sStartsWith (sTrim rawLine) "//" && st.values.isEmpty
              || sStartsWith (sTrim rawLine) "library" || isBlank (sTrim rawLine))) = true
      · rw [if_pos hc2] at hv
        by_cases hsa : st.startAtLine.isSome = true
        · rw [if_pos hsa] at hv
          exact hst v hv
        · rw [if_neg hsa] at hv
          exact hst v hv
      · rw [if_neg hc2] at hv
        exact ih hrest _ _ _ hst v hv

theorem readImports_values_sane (text : String) (pn : Option String) :
    ∀ v ∈ (Imports.readImports text pn).values, saneStmt v = true := by
  unfold Imports.readImports
  by_cases h : text = ""
  · rw [if_pos h]
    intro v hv
    simp [Imports.emptyState] at hv
  · rw [if_neg h]
    apply readGo_values_sane
    · intro line hline
      unfold splitNlStr at hline
      rcases List.mem_map.mp hline with ⟨piece, hp, rfl⟩
      exact splitNl_no_newline text.data piece hp
    · intro v hv
      simp [Imports.emptyState] at hv

theorem charListLe_total : ∀ x y : List Char, charListLe x y = true ∨ charListLe y x = true := by
  intro x
  induction x with
  | nil => intro y; left; rfl
  | cons a as ih =>
    intro y
    cases y with
    | nil => right; rfl
    | cons b bs =>
      rcases Nat.lt_trichotomy a.toNat b.toNat with h | h | h
      · left
        simp [charListLe, h]
      · have h1 : ¬ a.toNat < b.toNat := by omega
        have h2 : ¬ b.toNat < a.toNat := by omega
        rcases ih bs with hle | hge
        · left
          simp [charListLe, h1, h2, hle]
        · right
          simp [charListLe, h1, h2, hge]
      · right
        simp [charListLe, h]

theorem charListLe_trans :
    ∀ x y z : List Char, charListLe x y = true → charListLe y z = true →
      charListLe x z = true := by
  intro x
  induction x with
  | nil => intro y z _ _; rfl
  | cons a as ih =>
    intro y z hxy hyz
    cases y with
    | nil => simp [charListLe] at hxy
    | cons b bs =>
      cases z with
      | nil => simp [charListLe] at hyz
      | cons c cs =>
        simp only [charListLe] at hxy hyz ⊢
        by_cases hab : a.toNat < b.toNat
        · by_cases hbc : b.toNat < c.toNat
          · simp [show a.toNat < c.toNat by omega]
          · rw [if_neg hbc] at hyz
            by_cases hcb : c.toNat < b.toNat
            · rw [if_pos hcb] at hyz
              exact absurd hyz (by simp)
            · simp [show a.toNat < c.toNat by omega]
        · rw [if_neg hab] at hxy
          by_cases hba : b.toNat < a.toNat
          · rw [if_pos hba] at hxy
            exact absurd hxy (by simp)
          · rw [if_neg hba] at hxy
            by_cases hbc : b.toNat < c.toNat
            · simp [show a.toNat < c.toNat by omega]
            · rw [if_neg hbc] at hyz
              by_cases hcb : c.toNat < b.toNat
              · rw [if_pos hcb] at hyz
                exact absurd hyz (by simp)
              · rw [if_neg hcb] at hyz
                have hac : ¬ a.toNat < c.toNat := by omega
                have hca : ¬ c.toNat < a.toNat := by omega
                simp only [if_neg hac, if_neg hca]
                exact ih bs cs hxy hyz

theorem strLeRel_total : ∀ a b : String, strLeRel a b ∨ strLeRel b a :=
  fun a b => charListLe_total a.data b.data

theorem strLeRel_trans : ∀ a b c : String, strLeRel a b → strLeRel b c → strLeRel a c :=
  fun a b c hab hbc => charListLe_trans a.data b.data c.data hab hbc

theorem sortStrings_idem (l : List String) : sortStrings (sortStrings l) = sortStrings l := by
  haveI : IsTotal String strLeRel := ⟨strLeRel_total⟩
  haveI : IsTrans String strLeRel := ⟨strLeRel_trans⟩
  exact List.Sorted.insertionSort_eq (List.sorted_insertionSort strLeRel l)

theorem mem_sortStrings {x : String} {l : List String} :
    x ∈ sortStrings l ↔ x ∈ l :=
  (List.perm_insertionSort strLeRel l).mem_iff

theorem strConcat_append (x y : List String) :
    strConcat (x ++ y) = strConcat x ++ strConcat y := by
  induction x with
  | nil => simp [strConcat, str_empty_append]
  | cons s t ih =>
    show s ++ strConcat (t ++ y) = (s ++ strConcat t) ++ strConcat y
    rw [ih, str_append_assoc]

theorem joinLines_cons (v : String) (l : List String) :
    joinLines (v :: l) = (v ++ "\n") ++ joinLines l := rfl

theorem joinLines_append (x y : List String) :
    joinLines (x ++ y) = joinLines x ++ joinLines y := by
  unfold joinLines
  rw [List.map_append, strConcat_append]

theorem splitNl_joinLines (b : List String) (hb : ∀ v ∈ b, ¬ '\n' ∈ v.data) (r : List Char) :
    splitNl ((joinLines b).data ++ r) = b.map String.data ++ splitNl r := by
  induction b with
  | nil =>
    show splitNl ("".data ++ r) = [] ++ splitNl r
    rw [List.nil_append]
    rfl
  | cons v vs ih =>
    have hv : ¬ '\n' ∈ v.data := hb v (List.mem_cons_self _ _)
    have hvs : ∀ u ∈ vs, ¬ '\n' ∈ u.data := fun u hu => hb u (List.mem_cons_of_mem _ hu)
    rw [joinLines_cons]
    have hdata : ((v ++ "\n") ++ joinLines vs).data ++ r
        = v.data ++ '\n' :: ((joinLines vs).data ++ r) := by
      rw [String.data_append, String.data_append]
      show (v.data ++ '\n' :: []) ++ (joinLines vs).data ++ r = _
      simp [List.append_assoc]
    rw [hdata, splitNl_cons_append v.data hv, ih hvs]
    rfl

theorem chunkOf_empty (b : List String) (h : b.isEmpty = true) : chunkOf b = "" := by
  simp [chunkOf, h]

theorem chunkOf_ne_empty (b : List String) (h : b.isEmpty = false) :
    chunkOf b = joinLines b ++ "\n" := by
  simp [chunkOf, h]

theorem textOfBuckets_cons (b : List String) (rest : List (List String)) :
    textOfBuckets (b :: rest) = chunkOf b ++ textOfBuckets rest := rfl

theorem linesOfBuckets_cons_empty (b : List String) (rest : List (List String))
    (h : b.isEmpty = true) : linesOfBuckets (b :: rest) = linesOfBuckets rest := by
  have hb : b = [] := by simpa using h
  simp [linesOfBuckets, hb]

theorem linesOfBuckets_cons_ne (b : List String) (rest : List (List String))
    (h : b.isEmpty = false) : linesOfBuckets (b :: rest) = b ++ "" :: linesOfBuckets rest := by
  have hb : ¬ b = [] := by simpa using h
  simp [linesOfBuckets, hb]

theorem splitNl_textOfBuckets (bs : List (List String))
    (hb : ∀ b ∈ bs, ∀ v ∈ b, ¬ '\n' ∈ v.data) :
    splitNl (textOfBuckets bs).data = (linesOfBuckets bs).map String.data ++ [[]] := by
  induction bs with
  | nil => rfl
  | cons b rest ih =>
    have hbb : ∀ v ∈ b, ¬ '\n' ∈ v.data := hb b (List.mem_cons_self _ _)
    have hrest : ∀ b2 ∈ rest, ∀ v ∈ b2, ¬ '\n' ∈ v.data :=
      fun b2 h2 v hv => hb b2 (List.mem_cons_of_mem _ h2) v hv
    rw [textOfBuckets_cons]
    by_cases hbe : b.isEmpty
    · rw [chunkOf_empty b hbe, str_empty_append, linesOfBuckets_cons_empty b rest hbe]
      exact ih hrest
    · have hbef : b.isEmpty = false := by
        cases hv : b.isEmpty with
        | false => rfl
        | true => exact absurd hv hbe
      rw [chunkOf_ne_empty b hbef, linesOfBuckets_cons_ne b rest hbef]
      have hdata : ((joinLines b ++ "\n") ++ textOfBuckets rest).data
          = (joinLines b).data ++ '\n' :: (textOfBuckets rest).data := by
        rw [String.data_append, String.data_append]
        show (joinLines b).data ++ '\n' :: [] ++ (textOfBuckets rest).data = _
        simp [List.append_assoc]
      rw [hdata]
      have hstep : splitNl ((joinLines b).data ++ '\n' :: (textOfBuckets rest).data)
          = b.map String.data ++ splitNl ('\n' :: (textOfBuckets rest).data) :=
        splitNl_joinLines b hbb ('\n' :: (textOfBuckets rest).data)
      rw [hstep]
      show b.map String.data ++ ([] :: splitNl (textOfBuckets rest).data) = _
      rw [ih hrest]
      simp

theorem textOfBuckets_allEmpty (bs : List (List String))
    (h : ∀ b ∈ bs, b.isEmpty = true) : textOfBuckets bs = "" := by
  induction bs with
  | nil => rfl
  | cons b rest ih =>
    rw [textOfBuckets_cons, chunkOf_empty b (h b (List.mem_cons_self _ _)), str_empty_append]
    exact ih (fun b2 h2 => h b2 (List.mem_cons_of_mem _ h2))

theorem textOfBuckets_ends_newline (bs : List (List String))
    (h : ∃ b ∈ bs, b ≠ []) :
    ∃ u, (textOfBuckets bs).data = u ++ ['\n'] := by
  induction bs with
  | nil =>
    rcases h with ⟨b, hb, -⟩
    exact absurd hb (List.not_mem_nil b)
  | cons b rest ih =>
    by_cases hrest : ∃ b2 ∈ rest, b2 ≠ []
    · obtain ⟨u, hu⟩ := ih hrest
      refine ⟨(chunkOf b).data ++ u, ?_⟩
      rw [textOfBuckets_cons, String.data_append, hu, List.append_assoc]
    · have hb : b ≠ [] := by
        rcases h with ⟨b2, hb2, hne⟩
        rcases List.mem_cons.mp hb2 with rfl | hmem
        · exact hne
        · exact absurd ⟨b2, hmem, hne⟩ hrest
      have hallrest : ∀ b2 ∈ rest, b2.isEmpty = true := by
        intro b2 h2
        by_contra hne
        exact hrest ⟨b2, h2, fun hnil => hne (by simp [hnil])⟩
      have hempty : textOfBuckets rest = "" := textOfBuckets_allEmpty rest hallrest
      have hbef : b.isEmpty = false := by
        cases b with
        | nil => exact absurd rfl hb
        | cons x t => rfl
      refine ⟨(joinLines b).data, ?_⟩
      rw [textOfBuckets_cons, hempty, str_append_empty, chunkOf_ne_empty b hbef,
        String.data_append]

theorem readGo_sep_mid (prev : Option String) (i : Nat) (st : Imports) (rest : List String)
    (hrest : rest ≠ []) :
    Imports.readGo prev i st ("" :: rest) = Imports.readGo (some "") (i + 1) st rest := by
  have hre : rest.isEmpty = false := by
    cases rest with
    | nil => exact absurd rfl hrest
    | cons a t => rfl
  have h1 : sTrim "" = "" := rfl
  have h2 : stmtStart (sTrim "") = false := by decide
  have h3 : sStartsWith (sTrim "") "//" = false := by decide
  have h4 : sStartsWith (sTrim "") "library" = false := by decide
  have h5 : isBlank (sTrim "") = true := by decide
  simp [Imports.readGo, hre, h2, h3, h4, h5]

theorem readGo_last_sep (prev : Option String) (i : Nat) (st : Imports) :
    ∃ ea, Imports.readGo prev i st [""] = { st with endAtLine := ea } := by
  have h2 : stmtStart (sTrim "") = false := by decide
  by_cases hsa : st.startAtLine.isSome = true
  · refine ⟨if decide (0 < i) && (match prev with | some p => isBlank p | none => false)
        then some (i - 1) else some i, ?_⟩
    simp [Imports.readGo, h2, hsa]
  · refine ⟨st.endAtLine, ?_⟩
    simp [Imports.readGo, h2, hsa]

theorem readGo_stmt_block :
    ∀ (b : List String), (∀ v ∈ b, saneStmt v = true) →
      ∀ (rest : List String), rest ≠ [] →
        ∀ (prev : Option String) (i : Nat) (st : Imports),
          ∃ prev2 sa, Imports.readGo prev i st (b ++ rest)
            = Imports.readGo prev2 (i + b.length)
                { st with
                    values := st.values ++ b
                    rawStatements := st.rawStatements ++ joinLines b
                    startAtLine := sa } rest := by
  intro b
  induction b with
  | nil =>
    intro _ rest _ prev i st
    refine ⟨prev, st.startAtLine, ?_⟩
    have hst : ({ st with
        values := st.values ++ []
        rawStatements := st.rawStatements ++ joinLines []
        startAtLine := st.startAtLine } : Imports) = st := by
      show ({ st with
          values := st.values ++ []
          rawStatements := st.rawStatements ++ ""
          startAtLine := st.startAtLine } : Imports) = st
      rw [List.append_nil, str_append_empty]
    rw [List.nil_append, hst]
    show Imports.readGo prev i st rest = Imports.readGo prev (i + 0) st rest
    rw [Nat.add_zero]
  | cons v vs ih =>
    intro hb rest hrest prev i st
    have hv := hb v (List.mem_cons_self _ _)
    have hvs : ∀ u ∈ vs, saneStmt u = true := fun u hu => hb u (List.mem_cons_of_mem _ hu)
    have hv3 : sTrim v = v ∧ stmtStart v = true := by
      have := hv
      unfold saneStmt at this
      simp only [Bool.and_eq_true, decide_eq_true_eq] at this
      exact ⟨this.1.1, this.2⟩
    have hne : (vs ++ rest).isEmpty = false := by
      cases hvr : vs ++ rest with
      | nil =>
        rcases List.append_eq_nil.mp hvr with ⟨-, h2⟩
        exact absurd h2 hrest
      | cons a t => rfl
    have hone : Imports.readGo prev i st ((v :: vs) ++ rest)
        = Imports.readGo (some v) (i + 1)
            { st with
                values := st.values ++ [v]
                rawStatements := st.rawStatements ++ (v ++ "\n")
                startAtLine := if st.startAtLine.isSome then st.startAtLine
                  else some (i + 1) } (vs ++ rest) := by
      show Imports.readGo prev i st (v :: (vs ++ rest)) = _
      simp only [Imports.readGo, hv3.1, hv3.2, hne, Bool.false_eq_true, if_false,
        if_true, ite_false, ite_true]
    obtain ⟨p2, sa2, hrec⟩ := ih hvs rest hrest (some v) (i + 1)
      { st with
          values := st.values ++ [v]
          rawStatements := st.rawStatements ++ (v ++ "\n")
          startAtLine := if st.startAtLine.isSome then st.startAtLine else some (i + 1) }
    refine ⟨p2, sa2, ?_⟩
    rw [hone, hrec]
    have h1 : (st.values ++ [v]) ++ vs = st.values ++ (v :: vs) := by simp
    have h2 : (st.rawStatements ++ (v ++ "\n")) ++ joinLines vs
        = st.rawStatements ++ joinLines (v :: vs) :=
      str_append_assoc st.rawStatements (v ++ "\n") (joinLines vs)
    have h3 : i + 1 + vs.length = i + (v :: vs).length := by
      rw [List.length_cons]
      omega
    rw [h1, h2, h3]

theorem join_eq_nil_of_linesOfBuckets_nil (bs : List (List String))
    (h : linesOfBuckets bs = []) : bs.join = [] := by
  induction bs with
  | nil => rfl
  | cons b rest ih =>
    by_cases hbe : b.isEmpty = true
    · have hb : b = [] := by simpa using hbe
      rw [linesOfBuckets_cons_empty b rest hbe] at h
      simp [hb, ih h]
    · have hbef : b.isEmpty = false := by
        cases hv : b.isEmpty with
        | false => rfl
        | true => exact absurd hv hbe
      rw [linesOfBuckets_cons_ne b rest hbef] at h
      rcases List.append_eq_nil.mp h with ⟨-, h2⟩
      exact absurd h2 (by simp)

theorem readGo_linesOfBuckets :
    ∀ (bs : List (List String)), (∀ b ∈ bs, ∀ v ∈ b, saneStmt v = true) →
      ∀ (prev : Option String) (i : Nat) (st : Imports),
        (Imports.readGo prev i st (linesOfBuckets bs)).values = st.values ++ bs.join ∧
        (Imports.readGo prev i st (linesOfBuckets bs)).rawStatements
          = st.rawStatements ++ joinLines bs.join := by
  intro bs
  induction bs with
  | nil =>
    intro _ prev i st
    constructor
    · show st.values = st.values ++ List.join []
      simp
    · show st.rawStatements = st.rawStatements ++ joinLines (List.join [])
      show st.rawStatements = st.rawStatements ++ ""
      rw [str_append_empty]
  | cons b rest ih =>
    intro hs prev i st
    have hsb : ∀ v ∈ b, saneStmt v = true := hs b (List.mem_cons_self _ _)
    have hsrest : ∀ b2 ∈ rest, ∀ v ∈ b2, saneStmt v = true :=
      fun b2 h2 v hv => hs b2 (List.mem_cons_of_mem _ h2) v hv
    by_cases hbe : b.isEmpty = true
    · have hb : b = [] := by simpa using hbe
      rw [linesOfBuckets_cons_empty b rest hbe]
      obtain ⟨h1, h2⟩ := ih hsrest prev i st
      subst hb
      exact ⟨by simpa using h1, by simpa using h2⟩
    · have hbef : b.isEmpty = false := by
        cases hv : b.isEmpty with
        | false => rfl
        | true => exact absurd hv hbe
      rw [linesOfBuckets_cons_ne b rest hbef]
      obtain ⟨p2, sa, hblock⟩ :=
        readGo_stmt_block b hsb ("" :: linesOfBuckets rest) (by simp) prev i st
      rw [hblock]
      cases hlr : linesOfBuckets rest with
      | nil =>
        obtain ⟨ea, hlast⟩ := readGo_last_sep p2 (i + b.length)
          { st with
              values := st.values ++ b
              rawStatements := st.rawStatements ++ joinLines b
              startAtLine := sa }
        rw [hlast]
        have hjoin : rest.join = [] := join_eq_nil_of_linesOfBuckets_nil rest hlr
        constructor
        · show st.values ++ b = st.values ++ (b :: rest).join
          simp [hjoin]
        · show st.rawStatements ++ joinLines b = st.rawStatements ++ joinLines (b :: rest).join
          simp [hjoin]
      | cons lh lt =>
        rw [readGo_sep_mid p2 (i + b.length) _ (lh :: lt) (by simp), ← hlr]
        obtain ⟨h1, h2⟩ := ih hsrest (some "") (i + b.length + 1)
          { st with
              values := st.values ++ b
              rawStatements := st.rawStatements ++ joinLines b
              startAtLine := sa }
        rw [h1, h2]
        constructor
        · show (st.values ++ b) ++ rest.join = st.values ++ (b :: rest).join
          simp [List.append_assoc]
        · show (st.rawStatements ++ joinLines b) ++ joinLines rest.join
            = st.rawStatements ++ joinLines (b :: rest).join
          rw [str_append_assoc]
          have : joinLines (b :: rest).join = joinLines b ++ joinLines rest.join := by
            show joinLines (b ++ rest.join) = _
            rw [joinLines_append]
          rw [this]

theorem filter_sorted_bucket (w : Option String) (vals : List String) (j k : Nat) :
    (sortStrings (vals.filter (fun s => classifyStmt w s = j))).filter
        (fun s => classifyStmt w s = k)
      = if j = k then sortStrings (vals.filter (fun s => classifyStmt w s = j)) else [] := by
  by_cases hjk : j = k
  · subst hjk
    rw [if_pos rfl]
    apply List.filter_eq_self.mpr
    intro x hx
    have hx2 : x ∈ vals.filter (fun s => classifyStmt w s = j) := mem_sortStrings.mp hx
    exact (List.mem_filter.mp hx2).2
  · rw [if_neg hjk]
    apply List.filter_eq_nil_iff.mpr
    intro x hx
    have hx2 : x ∈ vals.filter (fun s => classifyStmt w s = j) := mem_sortStrings.mp hx
    have hcls := (List.mem_filter.mp hx2).2
    simp only [decide_eq_true_eq] at hcls
    simp [hcls, hjk]

theorem specBuckets_apply (w : Option String) (l : List String) :
    specBuckets w l =
      [sortStrings (l.filter (fun s => classifyStmt w s = 0)),
       sortStrings (l.filter (fun s => classifyStmt w s = 1)),
       sortStrings (l.filter (fun s => classifyStmt w s = 2)),
       sortStrings (l.filter (fun s => classifyStmt w s = 3)),
       sortStrings (l.filter (fun s => classifyStmt w s = 4)),
       sortStrings (l.filter (fun s => classifyStmt w s = 5))] := rfl

theorem specBuckets_join_repartition (w : Option String) (vals : List String) :
    specBuckets w ((specBuckets w vals).join) = specBuckets w vals := by
  have hjoin : (specBuckets w vals).join
      = sortStrings (vals.filter (fun s => classifyStmt w s = 0))
        ++ (sortStrings (vals.filter (fun s => classifyStmt w s = 1))
        ++ (sortStrings (vals.filter (fun s => classifyStmt w s = 2))
        ++ (sortStrings (vals.filter (fun s => classifyStmt w s = 3))
        ++ (sortStrings (vals.filter (fun s => classifyStmt w s = 4))
        ++ sortStrings (vals.filter (fun s => classifyStmt w s = 5)))))) := by
    simp [specBuckets]
  have h0 : ((specBuckets w vals).join).filter (fun s => classifyStmt w s = 0)
      = sortStrings (vals.filter (fun s => classifyStmt w s = 0)) := by
    rw [hjoin]
    simp [List.filter_append, filter_sorted_bucket]
  have h1 : ((specBuckets w vals).join).filter (fun s => classifyStmt w s = 1)
      = sortStrings (vals.filter (fun s => classifyStmt w s = 1)) := by
    rw [hjoin]
    simp [List.filter_append, filter_sorted_bucket]
  have h2 : ((specBuckets w vals).join).filter (fun s => classifyStmt w s = 2)
      = sortStrings (vals.filter (fun s => classifyStmt w s = 2)) := by
    rw [hjoin]
    simp [List.filter_append, filter_sorted_bucket]
  have h3 : ((specBuckets w vals).join).filter (fun s => classifyStmt w s = 3)
      = sortStrings (vals.filter (fun s => classifyStmt w s = 3)) := by
    rw [hjoin]
    simp [List.filter_append, filter_sorted_bucket]
  have h4 : ((specBuckets w vals).join).filter (fun s => classifyStmt w s = 4)
      = sortStrings (vals.filter (fun s => classifyStmt w s = 4)) := by
    rw [hjoin]
    simp [List.filter_append, filter_sorted_bucket]
  have h5 : ((specBuckets w vals).join).filter (fun s => classifyStmt w s = 5)
      = sortStrings (vals.filter (fun s => classifyStmt w s = 5)) := by
    rw [hjoin]
    simp [List.filter_append, filter_sorted_bucket]
  rw [specBuckets_apply w ((specBuckets w vals).join), h0, h1, h2, h3, h4, h5]
  simp only [sortStrings_idem]
  rw [specBuckets_apply w vals]

theorem mem_linesOfBuckets {v : String} :
    ∀ (bs : List (List String)) (b : List String), b ∈ bs → v ∈ b →
      v ∈ linesOfBuckets bs := by
  intro bs
  induction bs with
  | nil =>
    intro b hb
    exact absurd hb (List.not_mem_nil b)
  | cons b0 rest ih =>
    intro b hb hv
    by_cases hbe : b0.isEmpty = true
    · have hb0 : b0 = [] := by simpa using hbe
      rw [linesOfBuckets_cons_empty b0 rest hbe]
      rcases List.mem_cons.mp hb with rfl | hmem
      · rw [hb0] at hv
        exact absurd hv (List.not_mem_nil v)
      · exact ih b hmem hv
    · have hbef : b0.isEmpty = false := by
        cases hq : b0.isEmpty with
        | false => rfl
        | true => exact absurd hq hbe
      rw [linesOfBuckets_cons_ne b0 rest hbef]
      rcases List.mem_cons.mp hb with rfl | hmem
      · exact List.mem_append_left _ hv
      · exact List.mem_append_right _ (List.mem_cons_of_mem _ (ih b hmem hv))

theorem formattedWith_pipeline (w pn : Option String) (imp : Imports)
    (hP : ∀ v ∈ imp.values, saneStmt v = true) (hne : imp.values.isEmpty = false) :
    (Imports.readImports (Imports.formattedWith w imp) pn).values
        = (specBuckets w imp.values).join
      ∧ (Imports.readImports (Imports.formattedWith w imp) pn).rawStatements
        = joinLines ((specBuckets w imp.values).join) := by
  have hOspec : Imports.formattedWith w imp = formattedSpec w imp.values :=
    formattedWith_eq_spec w imp
  have hsane : ∀ b ∈ specBuckets w imp.values, ∀ u ∈ b, saneStmt u = true := by
    intro b hb u hu
    have hxb : ∃ k : Nat,
        b = sortStrings (imp.values.filter (fun s => classifyStmt w s = k)) := by
      simp only [specBuckets, List.mem_cons, List.not_mem_nil, or_false] at hb
      rcases hb with h | h | h | h | h | h
      · exact ⟨0, h⟩
      · exact ⟨1, h⟩
      · exact ⟨2, h⟩
      · exact ⟨3, h⟩
      · exact ⟨4, h⟩
      · exact ⟨5, h⟩
    obtain ⟨k, rfl⟩ := hxb
    have hu2 := mem_sortStrings.mp hu
    exact hP u (List.mem_of_mem_filter hu2)
  have hnoNl : ∀ b ∈ specBuckets w imp.values, ∀ u ∈ b, ¬ '\n' ∈ u.data := by
    intro b hb u hu
    have := hsane b hb u hu
    unfold saneStmt at this
    simp only [Bool.and_eq_true, decide_eq_true_eq] at this
    exact this.1.2
  have hvalsne : imp.values ≠ [] := by
    intro h
    rw [h] at hne
    simp at hne
  have hex : ∃ b ∈ specBuckets w imp.values, b ≠ [] := by
    by_contra hall
    push_neg at hall
    obtain ⟨v, hv⟩ := List.exists_mem_of_ne_nil imp.values hvalsne
    have hgen : ∀ k : Nat, classifyStmt w v = k →
        sortStrings (imp.values.filter (fun s => classifyStmt w s = k)) = [] → False := by
      intro k hk hnil
      have hperm := List.perm_insertionSort strLeRel
        (imp.values.filter (fun s => classifyStmt w s = k))
      unfold sortStrings at hnil
      rw [hnil] at hperm
      have hfe : imp.values.filter (fun s => classifyStmt w s = k) = [] :=
        (List.Perm.eq_nil hperm.symm)
      have hvm : v ∈ imp.values.filter (fun s => classifyStmt w s = k) :=
        List.mem_filter.mpr ⟨hv, by simp [hk]⟩
      rw [hfe] at hvm
      exact absurd hvm (List.not_mem_nil v)
    have hklt : classifyStmt w v = 0 ∨ classifyStmt w v = 1 ∨ classifyStmt w v = 2 ∨
        classifyStmt w v = 3 ∨ classifyStmt w v = 4 ∨ classifyStmt w v = 5 := by
      unfold classifyStmt
      split_ifs <;> simp
    rcases hklt with hk | hk | hk | hk | hk | hk
    · exact hgen 0 hk (hall _ (by simp [specBuckets]))
    · exact hgen 1 hk (hall _ (by simp [specBuckets]))
    · exact hgen 2 hk (hall _ (by simp [specBuckets]))
    · exact hgen 3 hk (hall _ (by simp [specBuckets]))
    · exact hgen 4 hk (hall _ (by simp [specBuckets]))
    · exact hgen 5 hk (hall _ (by simp [specBuckets]))
  obtain ⟨u, hu⟩ := textOfBuckets_ends_newline (specBuckets w imp.values) hex
  have hO : (formattedSpec w imp.values).data = u := by
    unfold formattedSpec
    have hends : sEndsWith (textOfBuckets (specBuckets w imp.values)) "\n" = true := by
      unfold sEndsWith
      rw [hu]
      have hlen : (u ++ ['\n']).length - "\n".data.length = u.length := by simp
      rw [hlen, List.drop_left]
      simp
    unfold removeEnd
    simp only [hends, if_true]
    show (textOfBuckets (specBuckets w imp.values)).data.take
        ((textOfBuckets (specBuckets w imp.values)).data.length - "\n".data.length) = u
    rw [hu]
    have hlen : (u ++ ['\n']).length - "\n".data.length = u.length := by simp
    rw [hlen, List.take_left]
  have hlines : splitNlStr (formattedSpec w imp.values)
      = linesOfBuckets (specBuckets w imp.values) := by
    unfold splitNlStr
    have hsplit2 : splitNl (textOfBuckets (specBuckets w imp.values)).data
        = (linesOfBuckets (specBuckets w imp.values)).map String.data ++ [[]] :=
      splitNl_textOfBuckets _ hnoNl
    rw [hu, splitNl_append_last_newline] at hsplit2
    have hcancel : splitNl u
        = (linesOfBuckets (specBuckets w imp.values)).map String.data := by
      have hdl := congrArg List.dropLast hsplit2
      simpa [List.dropLast_concat] using hdl
    rw [hO, hcancel, List.map_map]
    have hid : ((fun l : List Char => (⟨l⟩ : String)) ∘ String.data) = id := by
      funext x
      rfl
    rw [hid, List.map_id]
  have hOne : formattedSpec w imp.values ≠ "" := by
    intro h0
    obtain ⟨b0, hb0, hbne⟩ := hex
    obtain ⟨v0, hv0⟩ := List.exists_mem_of_ne_nil b0 hbne
    have hv0l : v0 ∈ linesOfBuckets (specBuckets w imp.values) :=
      mem_linesOfBuckets (specBuckets w imp.values) b0 hb0 hv0
    rw [← hlines, h0] at hv0l
    have hsingle : v0 ∈ ([""] : List String) := by
      simpa [splitNlStr, splitNl] using hv0l
    rcases List.mem_singleton.mp hsingle with rfl
    have := hsane b0 hb0 "" hv0
    exact absurd this (by decide)
  rw [hOspec]
  unfold Imports.readImports
  rw [if_neg hOne, hlines]
  have hread := readGo_linesOfBuckets (specBuckets w imp.values) hsane none 0
    (Imports.emptyState pn)
  constructor
  · rw [hread.1]
    show ([] : List String) ++ (specBuckets w imp.values).join = _
    rw [List.nil_append]
  · rw [hread.2]
    show "" ++ joinLines ((specBuckets w imp.values).join) = _
    rw [str_empty_append]

theorem formatted_empty_of_isEmpty (w : Option String) (imp : Imports)
    (hne : imp.values.isEmpty = true) : Imports.formattedWith w imp = "" := by
  unfold Imports.formattedWith Imports.hasImports
  simp [hne]

theorem isEmpty_false_of_not (l : List String) (h : ¬ l.isEmpty = true) :
    l.isEmpty = false := by
  cases hv : l.isEmpty with
  | false => rfl
  | true => exact absurd hv h

theorem formatted_read_formatted (w pn pn2 : Option String) (text : String) :
    Imports.formattedWith w
        (Imports.readImports (Imports.formattedWith w (Imports.readImports text pn)) pn2)
      = Imports.formattedWith w (Imports.readImports text pn) := by
  have hP : ∀ v ∈ (Imports.readImports text pn).values, saneStmt v = true :=
    readImports_values_sane text pn
  by_cases hne : (Imports.readImports text pn).values.isEmpty = true
  · rw [formatted_empty_of_isEmpty w _ hne]
    rfl
  · have hne2 := isEmpty_false_of_not _ hne
    obtain ⟨hv1, -⟩ := formattedWith_pipeline w pn2 (Imports.readImports text pn) hP hne2
    rw [formattedWith_eq_spec w
      (Imports.readImports (Imports.formattedWith w (Imports.readImports text pn)) pn2), hv1]
    rw [formattedWith_eq_spec w (Imports.readImports text pn)]
    unfold formattedSpec
    rw [specBuckets_join_repartition]

/-- Claim C2: formatting the import block is idempotent.  For every source
text, reading the imports, formatting them, reading the formatted output
again with readImports, and formatting once more yields the same string as
the first formatting; the resolved workspace name and the project names
given to the readers are arbitrary. -/
theorem c2_format_idempotent (w pn pn2 : Option String) (text : String) :
    Imports.formattedWith w
        (Imports.readImports (Imports.formattedWith w (Imports.readImports text pn)) pn2)
      = Imports.formattedWith w (Imports.readImports text pn) :=
  formatted_read_formatted w pn pn2 text

theorem stripWs_append (a b : String) : stripWs (a ++ b) = stripWs a ++ stripWs b := by
  apply String.ext
  show ((a ++ b).data).filter (fun c => !isWsChar c) = _
  rw [String.data_append, List.filter_append]
  rfl

theorem stripWs_newline_right (a : String) : stripWs (a ++ "\n") = stripWs a := by
  rw [stripWs_append]
  have h : stripWs "\n" = "" := rfl
  rw [h, str_append_empty]

theorem stripWs_joinLines (l : List String) :
    stripWs (joinLines l) = strConcat (l.map stripWs) := by
  induction l with
  | nil => rfl
  | cons v t ih =>
    rw [joinLines_cons]
    show stripWs ((v ++ "\n") ++ joinLines t) = stripWs v ++ strConcat (t.map stripWs)
    rw [stripWs_append, stripWs_newline_right, ih]

theorem stripWs_chunkOf (b : List String) :
    stripWs (chunkOf b) = stripWs (joinLines b) := by
  by_cases hbe : b.isEmpty = true
  · have hb : b = [] := by simpa using hbe
    subst hb
    rfl
  · have hbef : b.isEmpty = false := isEmpty_false_of_not b hbe
    rw [chunkOf_ne_empty b hbef, stripWs_newline_right]

theorem stripWs_textOfBuckets (bs : List (List String)) :
    stripWs (textOfBuckets bs) = stripWs (joinLines bs.join) := by
  induction bs with
  | nil => rfl
  | cons b rest ih =>
    rw [textOfBuckets_cons, stripWs_append, stripWs_chunkOf, ih]
    have hj : joinLines ((b :: rest).join) = joinLines b ++ joinLines rest.join := by
      show joinLines (b ++ rest.join) = _
      rw [joinLines_append]
    rw [hj, stripWs_append]

/-- Counterexample for claim C6: a block of one platform import and one
relative import, already in bucket order.  The raw captured text holds the
two directives on consecutive lines while the formatted text inserts a
blank separator line between the two buckets, so the two strings differ,
yet shouldChange is false; the claimed equivalence of shouldChange with
plain string difference therefore fails. -/
theorem c6_counterexample :
    (Imports.readImports "import \x27dart:io\x27;\nimport \x27b.dart\x27;"
        none).rawStatements
        ≠ Imports.formattedWith none
            (Imports.readImports "import \x27dart:io\x27;\nimport \x27b.dart\x27;" none)
      ∧ Imports.shouldChangeWith none
            (Imports.readImports "import \x27dart:io\x27;\nimport \x27b.dart\x27;" none)
          = false := by
  constructor
  · decide
  · decide

theorem stripWs_removeEnd_newline (x : String) :
    stripWs (removeEnd x "\n") = stripWs x := by
  unfold removeEnd
  by_cases h : sEndsWith x "\n" = true
  · simp only [h, if_true]
    have hdrop : x.data.drop (x.data.length - "\n".data.length) = "\n".data := by
      unfold sEndsWith at h
      exact of_decide_eq_true h
    have hx : x.data = x.data.take (x.data.length - "\n".data.length) ++ ['\n'] := by
      conv_lhs => rw [← List.take_append_drop (x.data.length - "\n".data.length) x.data]
      rw [hdrop]
    apply String.ext
    show (x.data.take (x.data.length - "\n".data.length)).filter (fun c => !isWsChar c)
        = x.data.filter (fun c => !isWsChar c)
    conv_rhs => rw [hx]
    rw [List.filter_append]
    simp
    decide
  · rw [if_neg h]

/-- Claim C6 as amended: shouldChange is true exactly when the raw captured
directive text differs from the formatted output after removal of all
whitespace; in particular a source whose import block is the formatted
output of any import block yields shouldChange false, so no edit is
emitted. -/
theorem c6_shouldChange_amended :
    (∀ (w : Option String) (imp : Imports),
        Imports.shouldChangeWith w imp = true ↔
          stripWs imp.rawStatements ≠ stripWs (Imports.formattedWith w imp)) ∧
    (∀ (w pn pn2 : Option String) (text : String),
        Imports.shouldChangeWith w
            (Imports.readImports (Imports.formattedWith w (Imports.readImports text pn)) pn2)
          = false) := by
  constructor
  · intro w imp
    unfold Imports.shouldChangeWith areStrictEqual
    simp
  · intro w pn pn2 text
    have hP : ∀ v ∈ (Imports.readImports text pn).values, saneStmt v = true :=
      readImports_values_sane text pn
    by_cases hne : (Imports.readImports text pn).values.isEmpty = true
    · rw [formatted_empty_of_isEmpty w _ hne]
      rfl
    · have hne2 := isEmpty_false_of_not _ hne
      obtain ⟨-, hraw⟩ :=
        formattedWith_pipeline w pn2 (Imports.readImports text pn) hP hne2
      unfold Imports.shouldChangeWith areStrictEqual
      rw [hraw, formatted_read_formatted w pn pn2 text,
        formattedWith_eq_spec w (Imports.readImports text pn)]
      have hstrip : stripWs (formattedSpec w (Imports.readImports text pn).values)
          = stripWs (joinLines ((specBuckets w (Imports.readImports text pn).values).join)) := by
        unfold formattedSpec
        rw [stripWs_removeEnd_newline, stripWs_textOfBuckets]
      simp [hstrip]
